import Mathlib

/-!
Verification of `src/policy_generator/convertor.py` (mra-core).

Permission codes, table names, role names and all other Python strings are
modelled as `List Char`.  Python's substring test `needle in hay` is modelled
by `containsSub`, `str.strip` by `pyStrip`, and `json.loads` by `jsonParse`
(a JSON parser over `List Char` following the grammar accepted by Python's
`json` module: objects, arrays, strings with escapes, numbers, `true`,
`false`, `null` and the constants `NaN`/`Infinity`/`-Infinity`, with the
whole input consumed up to trailing whitespace).  Numbers are kept as their
lexemes; `\uXXXX` escapes are decoded without surrogate-pair combination —
neither difference is observable by any property proved below.
-/

namespace Convertor

/-- Boolean test that `n` is a prefix of `h` (written out to keep the
development self-contained). -/
def leadsWith : List Char → List Char → Bool
  | [], _ => true
  | _ :: _, [] => false
  | a :: as, b :: bs => a == b && leadsWith as bs

/-- Model of Python's substring containment `n in h`. -/
def containsSub (n : List Char) : List Char → Bool
  | [] => n.isEmpty
  | c :: t => leadsWith n (c :: t) || containsSub n t

/-- JSON whitespace as accepted by Python's `json.loads`. -/
def isJsonWs (c : Char) : Bool :=
  c == ' ' || c == '\t' || c == '\n' || c == '\r'

/-- Drop leading JSON whitespace. -/
def skipWs : List Char → List Char
  | [] => []
  | c :: t => if isJsonWs c then skipWs t else c :: t

/-- JSON values as produced by `json.loads` (numbers kept as lexemes). -/
inductive JsonValue where
  | null
  | bool (b : Bool)
  | num (lex : List Char)
  | str (s : List Char)
  | arr (elems : List JsonValue)
  | obj (members : List (List Char × JsonValue))

/-- Value of a hexadecimal digit, computed on the code point. -/
def hexVal (c : Char) : Option Nat :=
  let n := c.toNat
  if 48 ≤ n && n ≤ 57 then some (n - 48)
  else if 97 ≤ n && n ≤ 102 then some (n - 97 + 10)
  else if 65 ≤ n && n ≤ 70 then some (n - 65 + 10)
  else none

/-- Single-character JSON escapes (the decoded character by code point). -/
def escChar : Char → Option Char
  | '"' => some '"'
  | '\\' => some '\\'
  | '/' => some '/'
  | 'b' => some (Char.ofNat 8)
  | 'f' => some (Char.ofNat 12)
  | 'n' => some (Char.ofNat 10)
  | 'r' => some (Char.ofNat 13)
  | 't' => some (Char.ofNat 9)
  | _ => none

/-- Scan a JSON string body (the opening quote already consumed), returning
the decoded characters and the rest of the input after the closing quote.
Control characters below 0x20 are rejected, as in Python's strict mode. -/
def scanString : List Char → Option (List Char × List Char)
  | [] => none
  | c :: t =>
    if c == '"' then some ([], t)
    else if c == '\\' then
      match t with
      | [] => none
      | e :: t2 =>
        if e == 'u' then
          match t2 with
          | h1 :: h2 :: h3 :: h4 :: t3 =>
            match hexVal h1, hexVal h2, hexVal h3, hexVal h4 with
            | some a, some b, some c2, some d =>
              match scanString t3 with
              | some (cs, r) => some (Char.ofNat (((a * 16 + b) * 16 + c2) * 16 + d) :: cs, r)
              | none => none
            | _, _, _, _ => none
          | _ => none
        else
          match escChar e with
          | some ce =>
            match scanString t2 with
            | some (cs, r) => some (ce :: cs, r)
            | none => none
          | none => none
    else if c.toNat < 32 then none
    else
      match scanString t with
      | some (cs, r) => some (c :: cs, r)
      | none => none

/-- Optional exponent part of a JSON number, appended to the lexeme. -/
def afterExp (lex : List Char) (r : List Char) : List Char × List Char :=
  match r with
  | [] => (lex, [])
  | e :: rest =>
    if e == 'e' || e == 'E' then
      let sgnRest : List Char × List Char :=
        match rest with
        | c :: t => if c == '+' || c == '-' then ([c], t) else ([], rest)
        | [] => ([], [])
      let ds := sgnRest.2.takeWhile Char.isDigit
      if ds.isEmpty then (lex, e :: rest)
      else (lex ++ e :: (sgnRest.1 ++ ds), sgnRest.2.dropWhile Char.isDigit)
    else (lex, e :: rest)

/-- Optional fraction part of a JSON number, then the exponent. -/
def afterInt (lex : List Char) (r : List Char) : List Char × List Char :=
  match r with
  | '.' :: r2 =>
    let ds := r2.takeWhile Char.isDigit
    if ds.isEmpty then afterExp lex ('.' :: r2)
    else afterExp (lex ++ '.' :: ds) (r2.dropWhile Char.isDigit)
  | _ => afterExp lex r

/-- Match a JSON number lexeme `(-?(0|[1-9]\d*))(\.\d+)?([eE][-+]?\d+)?`
at the start of the input. -/
def scanNumber (s : List Char) : Option (List Char × List Char) :=
  let negRest : List Char × List Char :=
    match s with
    | '-' :: t => (['-'], t)
    | _ => ([], s)
  match negRest.2 with
  | [] => none
  | c :: t =>
    if c == '0' then some (afterInt (negRest.1 ++ ['0']) t)
    else if c.isDigit then
      some (afterInt (negRest.1 ++ c :: t.takeWhile Char.isDigit) (t.dropWhile Char.isDigit))
    else none

/-- Keywords, numbers and the non-finite constants accepted by `json.loads`. -/
def scanLiteral (s : List Char) : Option (JsonValue × List Char) :=
  if leadsWith (("null").toList) s then some (JsonValue.null, s.drop 4)
  else if leadsWith (("true").toList) s then some (JsonValue.bool true, s.drop 4)
  else if leadsWith (("false").toList) s then some (JsonValue.bool false, s.drop 5)
  else
    match scanNumber s with
    | some (lex, r) => some (JsonValue.num lex, r)
    | none =>
      if leadsWith (("NaN").toList) s then some (JsonValue.num (("NaN").toList), s.drop 3)
      else if leadsWith (("Infinity").toList) s then
        some (JsonValue.num (("Infinity").toList), s.drop 8)
      else if leadsWith (("-Infinity").toList) s then
        some (JsonValue.num (("-Infinity").toList), s.drop 9)
      else none

/-- Parsing mode: a single value, the elements of an array (closing `]`
consumed), or the members of an object (closing brace consumed). -/
inductive PMode where
  | value
  | elems
  | members

/-- Result of a parsing step, matching the mode. -/
inductive PRes where
  | val (v : JsonValue)
  | elemsR (vs : List JsonValue)
  | membersR (ms : List (List Char × JsonValue))

/-- Recursive-descent JSON parser; `fuel` bounds the recursion depth.
In `value` mode the input must start directly at the value (callers skip
whitespace first, as Python's scanner does). -/
def parseF : Nat → PMode → List Char → Option (PRes × List Char)
  | 0, _, _ => none
  | Nat.succ fuel, PMode.value, s =>
    match s with
    | [] => none
    | c :: t =>
      if c == '\x7b' then
        match skipWs t with
        | '\x7d' :: r => some (PRes.val (JsonValue.obj []), r)
        | t1 =>
          match parseF fuel PMode.members t1 with
          | some (PRes.membersR ms, r) => some (PRes.val (JsonValue.obj ms), r)
          | _ => none
      else if c == '[' then
        match skipWs t with
        | ']' :: r => some (PRes.val (JsonValue.arr []), r)
        | t1 =>
          match parseF fuel PMode.elems t1 with
          | some (PRes.elemsR vs, r) => some (PRes.val (JsonValue.arr vs), r)
          | _ => none
      else if c == '"' then
        match scanString t with
        | some (cs, r) => some (PRes.val (JsonValue.str cs), r)
        | none => none
      else
        match scanLiteral (c :: t) with
        | some (v, r) => some (PRes.val v, r)
        | none => none
  | Nat.succ fuel, PMode.elems, s =>
    match parseF fuel PMode.value s with
    | some (PRes.val v, r1) =>
      match skipWs r1 with
      | ']' :: r2 => some (PRes.elemsR [v], r2)
      | ',' :: r2 =>
        match parseF fuel PMode.elems (skipWs r2) with
        | some (PRes.elemsR vs, r3) => some (PRes.elemsR (v :: vs), r3)
        | _ => none
      | _ => none
    | _ => none
  | Nat.succ fuel, PMode.members, s =>
    match s with
    | '"' :: t =>
      match scanString t with
      | none => none
      | some (key, r1) =>
        match skipWs r1 with
        | ':' :: r2 =>
          match parseF fuel PMode.value (skipWs r2) with
          | some (PRes.val v, r3) =>
            match skipWs r3 with
            | '\x7d' :: r4 => some (PRes.membersR [(key, v)], r4)
            | ',' :: r4 =>
              match parseF fuel PMode.members (skipWs r4) with
              | some (PRes.membersR ms, r5) => some (PRes.membersR ((key, v) :: ms), r5)
              | _ => none
            | _ => none
          | _ => none
        | _ => none
    | _ => none

/-- Model of Python's `json.loads`: parse one value, then require only
whitespace to remain. `none` models a raised `json.JSONDecodeError`. -/
def jsonParse (s : List Char) : Option JsonValue :=
  match parseF (2 * s.length + 4) PMode.value (skipWs s) with
  | some (PRes.val v, rest) => if (skipWs rest).isEmpty then some v else none
  | _ => none

/-! Attribute extraction (`parse_json_from_permission_code`). -/

/-- Attribute payload attached to a cell: the Python function returns either
the string `"none"` or the parsed JSON dictionary. -/
inductive Attrs where
  | none
  | json (v : JsonValue)

/-- Split a permission code at the first brace: `some (before, from_brace)`
when a brace occurs, `none` otherwise (Python's `str.index` raising). -/
def splitAtBrace : List Char → Option (List Char × List Char)
  | [] => Option.none
  | c :: t =>
    if c == '\x7b' then some ([], c :: t)
    else
      match splitAtBrace t with
      | Option.none => Option.none
      | some (a, b) => some (c :: a, b)

/-- Model of `parse_json_from_permission_code`: extract the JSON suffix (from
the first brace to the end) when present; on a decode error raise
`ValueError` carrying the raw permission code, modelled as `Except.error`. -/
def parse_json_from_permission_code (permission_code : List Char) :
    Except (List Char) (List Char × Attrs) :=
  match splitAtBrace permission_code with
  | Option.none => Except.ok (permission_code, Attrs.none)
  | some (clean, jsonStr) =>
    match jsonParse jsonStr with
    | some v => Except.ok (clean, Attrs.json v)
    | Option.none =>
      Except.error ((("Invalid JSON in permission code: ").toList) ++ permission_code)

/-! The resolver (`permission_to_policy_actions_and_conditions`). -/

/-- One output policy row `(subject, domain, object, action, condition,
attributes, effect)`. -/
structure Policy where
  subject : List Char
  domain : List Char
  object : List Char
  action : List Char
  condition : List Char
  attributes : Attrs
  effect : List Char

/-- One `Meaningless code` diagnostic, carrying exactly the values
interpolated into the Python `print`: the (cleaned) permission code, the
table and the role. -/
structure Diag where
  permission_code : List Char
  table : List Char
  role : List Char
deriving DecidableEq

/-- The fixed base-action list `["C", "R", "U", "D"]`. -/
def actions : List Char := ['C', 'R', 'U', 'D']

/-- Condition of the direct policy for `a`: ownership if `aO` occurs in the
code, else relationship if `a*` occurs, else none. -/
def directCondition (code : List Char) (a : Char) : List Char :=
  if containsSub [a, 'O'] code then ("check_ownership").toList
  else if containsSub [a, '*'] code then ("check_relationship").toList
  else ("none").toList

/-- The direct policy row appended when action letter `a` occurs in the code. -/
def directPolicy (code table role : List Char) (attrs : Attrs) (a : Char) : Policy :=
  { subject := role, domain := ['0'], object := table, action := [a],
    condition := directCondition code a, attributes := attrs,
    effect := ("allow").toList }

/-- The grant policy row for `a` with condition `c`. -/
def grantPolicy (table role : List Char) (attrs : Attrs) (a : Char) (c : List Char) : Policy :=
  { subject := role, domain := ['0'], object := table, action := ['G', a],
    condition := c, attributes := attrs, effect := ("allow").toList }

/-- One iteration of the resolver's `for action in actions` loop: the policy
rows appended for `a` and the diagnostics printed for `a`. -/
def entriesFor (code table role : List Char) (attrs : Attrs) (a : Char) :
    List Policy × List Diag :=
  if containsSub [a] code then
    if containsSub ['G', a, 'O'] code then
      ([directPolicy code table role attrs a], [⟨code, table, role⟩])
    else if containsSub ['G', a, '*'] code then
      ([directPolicy code table role attrs a,
        grantPolicy table role attrs a (("check_relationship").toList)], [])
    else if containsSub ['G', a] code then
      ([directPolicy code table role attrs a,
        grantPolicy table role attrs a (("none").toList)], [])
    else ([directPolicy code table role attrs a], [])
  else ([], [])

/-- The resolver's loop over the cleaned code: all policy rows in loop order,
and all diagnostics in loop order. -/
def resolveCore (code table role : List Char) (attrs : Attrs) :
    List Policy × List Diag :=
  (((actions.map (entriesFor code table role attrs)).map Prod.fst).flatten,
   ((actions.map (entriesFor code table role attrs)).map Prod.snd).flatten)

/-- Model of `permission_to_policy_actions_and_conditions`: extract the
attributes, then run the action loop; a `ValueError` from the extractor
propagates. -/
def permission_to_policy_actions_and_conditions (permission_code table role : List Char) :
    Except (List Char) (List Policy × List Diag) :=
  match parse_json_from_permission_code permission_code with
  | Except.error e => Except.error e
  | Except.ok (code, attrs) => Except.ok (resolveCore code table role attrs)

/-- Python whitespace stripped by `str.strip` (ASCII part). -/
def isPySpace (c : Char) : Bool :=
  c == ' ' || c == '\t' || c == '\n' || c == '\r' || c == '\x0b' || c == '\x0c'

/-- Model of Python's `str.strip`. -/
def pyStrip (s : List Char) : List Char :=
  ((s.dropWhile isPySpace).reverse.dropWhile isPySpace).reverse

/-- Per-cell body of `generate_policies_csv`'s loop: strip the cell, then
resolve it. -/
def cellPolicies (cell table role : List Char) :
    Except (List Char) (List Policy × List Diag) :=
  permission_to_policy_actions_and_conditions (pyStrip cell) table role

/-! Projections used to state concrete counterexamples without needing
decidable equality on `JsonValue`. -/

/-- Policies of a successful resolution. -/
def okPolicies (e : Except (List Char) (List Policy × List Diag)) : Option (List Policy) :=
  match e with
  | Except.ok (p, _) => some p
  | Except.error _ => Option.none

/-- Diagnostics of a successful resolution. -/
def okDiags (e : Except (List Char) (List Policy × List Diag)) : Option (List Diag) :=
  match e with
  | Except.ok (_, d) => some d
  | Except.error _ => Option.none

/-! Helper lemmas. -/

/-- Every list leads with itself. -/
theorem leadsWith_refl (s : List Char) : leadsWith s s = true := by
  induction s with
  | nil => rfl
  | cons c t ih => simp [leadsWith, ih]

/-- A list is a substring of itself. -/
theorem containsSub_self (s : List Char) : containsSub s s = true := by
  cases s with
  | nil => rfl
  | cons c t => simp [containsSub, leadsWith_refl]

/-- A suffix is a substring. -/
theorem containsSub_append_self (pre s : List Char) : containsSub s (pre ++ s) = true := by
  induction pre with
  | nil => simpa using containsSub_self s
  | cons c t ih => simp [containsSub, ih]

/-- The five possible outcomes of one loop iteration. -/
theorem entriesFor_eq (code table role : List Char) (attrs : Attrs) (a : Char) :
    entriesFor code table role attrs a = ([], []) ∨
    entriesFor code table role attrs a =
      ([directPolicy code table role attrs a], [⟨code, table, role⟩]) ∨
    entriesFor code table role attrs a =
      ([directPolicy code table role attrs a,
        grantPolicy table role attrs a (("check_relationship").toList)], []) ∨
    entriesFor code table role attrs a =
      ([directPolicy code table role attrs a,
        grantPolicy table role attrs a (("none").toList)], []) ∨
    entriesFor code table role attrs a = ([directPolicy code table role attrs a], []) := by
  unfold entriesFor
  split_ifs <;> simp

/-- Membership in one loop iteration's policies: the row is the direct row or
one of the two possible grant rows for that action. -/
theorem mem_entriesFor {code table role : List Char} {attrs : Attrs} {a : Char} {p : Policy}
    (h : p ∈ (entriesFor code table role attrs a).1) :
    p = directPolicy code table role attrs a ∨
    p = grantPolicy table role attrs a (("check_relationship").toList) ∨
    p = grantPolicy table role attrs a (("none").toList) := by
  rcases entriesFor_eq code table role attrs a with h5 | h5 | h5 | h5 | h5 <;>
    rw [h5] at h <;> simp at h <;> tauto

/-- The resolver's policies are the four per-action blocks in order. -/
theorem resolveCore_fst (code table role : List Char) (attrs : Attrs) :
    (resolveCore code table role attrs).1 =
      (entriesFor code table role attrs 'C').1 ++ (entriesFor code table role attrs 'R').1 ++
      (entriesFor code table role attrs 'U').1 ++ (entriesFor code table role attrs 'D').1 := by
  simp [resolveCore, actions]

/-- The resolver's diagnostics are the four per-action blocks in order. -/
theorem resolveCore_snd (code table role : List Char) (attrs : Attrs) :
    (resolveCore code table role attrs).2 =
      (entriesFor code table role attrs 'C').2 ++ (entriesFor code table role attrs 'R').2 ++
      (entriesFor code table role attrs 'U').2 ++ (entriesFor code table role attrs 'D').2 := by
  simp [resolveCore, actions]

/-- Every policy of the resolver comes from some base action's iteration. -/
theorem mem_resolveCore {code table role : List Char} {attrs : Attrs} {p : Policy}
    (h : p ∈ (resolveCore code table role attrs).1) :
    ∃ a, a ∈ actions ∧ p ∈ (entriesFor code table role attrs a).1 := by
  rw [resolveCore_fst] at h
  simp only [List.mem_append] at h
  rcases h with ((h | h) | h) | h
  · exact ⟨'C', by simp [actions], h⟩
  · exact ⟨'R', by simp [actions], h⟩
  · exact ⟨'U', by simp [actions], h⟩
  · exact ⟨'D', by simp [actions], h⟩

/-- Inversion of a successful run of the full resolver. -/
theorem permission_ok_inv {permission_code table role : List Char}
    {pols : List Policy} {diags : List Diag}
    (h : permission_to_policy_actions_and_conditions permission_code table role =
      Except.ok (pols, diags)) :
    ∃ code attrs, parse_json_from_permission_code permission_code = Except.ok (code, attrs) ∧
      pols = (resolveCore code table role attrs).1 ∧
      diags = (resolveCore code table role attrs).2 := by
  unfold permission_to_policy_actions_and_conditions at h
  cases hp : parse_json_from_permission_code permission_code with
  | error e => rw [hp] at h; exact absurd h (by simp)
  | ok v =>
    obtain ⟨code, attrs⟩ := v
    rw [hp] at h
    simp only [Except.ok.injEq] at h
    exact ⟨code, attrs, rfl, congrArg Prod.fst h.symm, congrArg Prod.snd h.symm⟩

/-! Claim theorems. -/

/-- C1 counterexample: resolving `"GCO"` does not give the direct Create
entry condition `none`: the two-character sequence `CO` occurs in `"GCO"`,
so the code selects `check_ownership`. -/
theorem c1_counterexample :
    (okPolicies (permission_to_policy_actions_and_conditions (("GCO").toList)
      (("tbl").toList) (("admin").toList))).map (fun l => l.map Policy.condition) =
      some [(("check_ownership").toList)] ∧
    (("check_ownership").toList) ≠ (("none").toList) := by
  constructor
  · decide
  · decide

/-- C1 (amended): resolving `"GCO"` yields exactly one direct entry, with
action `C` and condition `check_ownership`, no grant entry, and exactly one
meaningless-grant diagnostic naming the code, the table and the role. -/
theorem c1_amended_theorem (table role : List Char) :
    permission_to_policy_actions_and_conditions (("GCO").toList) table role =
      Except.ok
        ([{ subject := role, domain := ['0'], object := table, action := ['C'],
            condition := ("check_ownership").toList, attributes := Attrs.none,
            effect := ("allow").toList }],
         [⟨("GCO").toList, table, role⟩]) := by
  rfl

/-- C2 counterexample: resolving `"GC*"` does not give the direct Create
entry condition `none`: the sequence `C*` occurs in `"GC*"`, so the code
selects `check_relationship` for the direct entry as well. -/
theorem c2_counterexample :
    (okPolicies (permission_to_policy_actions_and_conditions (("GC*").toList)
      (("tbl").toList) (("admin").toList))).map (fun l => l.map Policy.action) =
      some [['C'], ['G', 'C']] ∧
    (okPolicies (permission_to_policy_actions_and_conditions (("GC*").toList)
      (("tbl").toList) (("admin").toList))).map (fun l => l.map Policy.condition) =
      some [(("check_relationship").toList), (("check_relationship").toList)] ∧
    (("check_relationship").toList) ≠ (("none").toList) := by
  refine ⟨by decide, by decide, by decide⟩

/-- C2 (amended): resolving `"GC*"` yields a direct entry with action `C`
and condition `check_relationship` (the sequence `C*` matches the direct
relationship rule), plus one grant entry with action `GC` and condition
`check_relationship`, and nothing else. -/
theorem c2_amended_theorem (table role : List Char) :
    permission_to_policy_actions_and_conditions (("GC*").toList) table role =
      Except.ok
        ([{ subject := role, domain := ['0'], object := table, action := ['C'],
            condition := ("check_relationship").toList, attributes := Attrs.none,
            effect := ("allow").toList },
          { subject := role, domain := ['0'], object := table, action := ['G', 'C'],
            condition := ("check_relationship").toList, attributes := Attrs.none,
            effect := ("allow").toList }],
         []) := by
  rfl

/-- C5: whenever a permission code contains a brace and the substring from
the first brace to the end does not parse as JSON, the resolver fails with
the `Invalid JSON in permission code` error carrying the full raw code (the
raw code is a substring of the error message), and no policy rows are
produced. -/
theorem c5_theorem (code table role clean jsonStr : List Char)
    (h1 : splitAtBrace code = some (clean, jsonStr))
    (h2 : jsonParse jsonStr = Option.none) :
    permission_to_policy_actions_and_conditions code table role =
      Except.error ((("Invalid JSON in permission code: ").toList) ++ code) ∧
    containsSub code ((("Invalid JSON in permission code: ").toList) ++ code) = true := by
  constructor
  · simp [permission_to_policy_actions_and_conditions, parse_json_from_permission_code, h1, h2]
  · exact containsSub_append_self _ _

/-- C5 witness: `"CRUD{bad json"` fails with the invalid-payload error. -/
theorem c5_witness :
    permission_to_policy_actions_and_conditions (("CRUD\x7bbad json").toList)
      (("tbl").toList) (("admin").toList) =
      Except.error ((("Invalid JSON in permission code: ").toList) ++
        (("CRUD\x7bbad json").toList)) ∧
    containsSub (("CRUD\x7bbad json").toList)
      ((("Invalid JSON in permission code: ").toList) ++ (("CRUD\x7bbad json").toList)) =
      true :=
  c5_theorem (("CRUD\x7bbad json").toList) (("tbl").toList) (("admin").toList)
    (("CRUD").toList) (("\x7bbad json").toList) (by rfl) (by rfl)

/-- The attribute mapping `{"region": "eu"}`. -/
def regionAttrs : Attrs :=
  Attrs.json (JsonValue.obj [((("region").toList), JsonValue.str (("eu").toList))])

/-- C7: extracting `"CRUD{\"region\":\"eu\"}"` yields base code `"CRUD"` and
the attribute mapping `{region: "eu"}`, and all four policy rows built from
that cell carry exactly that attribute mapping. -/
theorem c7_theorem (table role : List Char) :
    parse_json_from_permission_code (("CRUD\x7b\"region\":\"eu\"\x7d").toList) =
      Except.ok ((("CRUD").toList), regionAttrs) ∧
    (okPolicies (permission_to_policy_actions_and_conditions
      (("CRUD\x7b\"region\":\"eu\"\x7d").toList) table role)).map
      (fun l => l.map Policy.attributes) = some (List.replicate 4 regionAttrs) := by
  constructor
  · rfl
  · rfl

/-- C8: a cell whose raw content is empty or consists of whitespace only
compiles to zero policy rows and zero diagnostics, with no error. -/
theorem c8_theorem (cell table role : List Char) (h : ∀ c ∈ cell, isPySpace c = true) :
    cellPolicies cell table role = Except.ok ([], []) := by
  have hs : pyStrip cell = [] := by
    unfold pyStrip
    rw [List.dropWhile_eq_nil_iff.mpr h]
    rfl
  unfold cellPolicies
  rw [hs]
  rfl

/-- C8 witness: the whitespace-only cell `" \t"` yields no rules. -/
theorem c8_witness :
    cellPolicies ((" \t").toList) (("tbl").toList) (("admin").toList) =
      Except.ok ([], []) :=
  c8_theorem ((" \t").toList) (("tbl").toList) (("admin").toList) (by decide)

/-- Each base action's block is contained in the resolver's output. -/
theorem block_subset {code table role : List Char} {attrs : Attrs} {a : Char} {p : Policy}
    (ha : a ∈ actions) (hp : p ∈ (entriesFor code table role attrs a).1) :
    p ∈ (resolveCore code table role attrs).1 := by
  rw [resolveCore_fst]
  fin_cases ha <;> simp [hp]

/-- The direct row is emitted whenever the action letter occurs in the code. -/
theorem directPolicy_mem_entriesFor {code : List Char} (table role : List Char) (attrs : Attrs)
    {a : Char} (h : containsSub [a] code = true) :
    directPolicy code table role attrs a ∈ (entriesFor code table role attrs a).1 := by
  unfold entriesFor
  rw [h]
  split_ifs <;> simp_all

/-- C3: for every base code and every base action letter occurring in it,
some direct entry for that action is emitted, and every entry bearing that
bare action letter carries the condition selected by the precedence
ownership-sequence, then relationship-sequence, then none. -/
theorem c3_theorem (code table role : List Char) (attrs : Attrs) (a : Char)
    (ha : a ∈ actions) (h : containsSub [a] code = true) :
    (∃ p, p ∈ (resolveCore code table role attrs).1 ∧ p.action = [a]) ∧
    (∀ p, p ∈ (resolveCore code table role attrs).1 → p.action = [a] →
      p.condition =
        (if containsSub [a, 'O'] code then ("check_ownership").toList
         else if containsSub [a, '*'] code then ("check_relationship").toList
         else ("none").toList)) := by
  constructor
  · exact ⟨directPolicy code table role attrs a,
      block_subset ha (directPolicy_mem_entriesFor table role attrs h), rfl⟩
  · intro p hp hact
    obtain ⟨b, _, hpb⟩ := mem_resolveCore hp
    rcases mem_entriesFor hpb with h1 | h1 | h1
    · have hba : b = a := by
        rw [h1] at hact
        simpa [directPolicy] using hact
      rw [h1, hba]
      rfl
    · rw [h1] at hact
      simp [grantPolicy] at hact
    · rw [h1] at hact
      simp [grantPolicy] at hact

/-- C3 witness: in the base code `"CO"`, Create occurs and its direct entry
gets condition `check_ownership`. -/
theorem c3_witness :
    (∃ p, p ∈ (resolveCore (("CO").toList) (("tbl").toList) (("admin").toList) Attrs.none).1 ∧
      p.action = ['C']) ∧
    (∀ p, p ∈ (resolveCore (("CO").toList) (("tbl").toList) (("admin").toList) Attrs.none).1 →
      p.action = ['C'] →
      p.condition =
        (if containsSub ['C', 'O'] (("CO").toList) then ("check_ownership").toList
         else if containsSub ['C', '*'] (("CO").toList) then ("check_relationship").toList
         else ("none").toList)) :=
  c3_theorem (("CO").toList) (("tbl").toList) (("admin").toList) Attrs.none 'C'
    (by decide) (by decide)

/-- When the meaningless combination for `a` is present, `a`'s iteration
emits only the direct row plus the diagnostic. -/
theorem entriesFor_meaningless {code : List Char} (table role : List Char) (attrs : Attrs)
    {a : Char} (h1 : containsSub [a] code = true)
    (h2 : containsSub ['G', a, 'O'] code = true) :
    entriesFor code table role attrs a =
      ([directPolicy code table role attrs a], [⟨code, table, role⟩]) := by
  unfold entriesFor
  rw [h1, h2]
  rfl

/-- C4 counterexample: for the authored code `"GCO{\"a\":1}"` the recorded
diagnostic carries the cleaned base code `"GCO"`, which is not the raw
permission code as authored (the attribute payload is stripped first). -/
theorem c4_counterexample :
    okDiags (permission_to_policy_actions_and_conditions (("GCO\x7b\"a\":1\x7d").toList)
      (("tbl").toList) (("admin").toList)) =
      some [⟨("GCO").toList, ("tbl").toList, ("admin").toList⟩] ∧
    (("GCO").toList) ≠ (("GCO\x7b\"a\":1\x7d").toList) := by
  constructor
  · decide
  · decide

/-- C4 (amended): whenever the cleaned base code contains `G{action}O` with
the base action letter present, no grant entry is produced for that action,
a diagnostic is recorded naming the base code (the authored code with any
attribute payload stripped), the table and the role, and the resolver still
succeeds (the diagnostic is not an error). -/
theorem c4_amended_theorem (permission_code table role code : List Char) (attrs : Attrs)
    (a : Char)
    (hp : parse_json_from_permission_code permission_code = Except.ok (code, attrs))
    (ha : a ∈ actions) (h1 : containsSub [a] code = true)
    (h2 : containsSub ['G', a, 'O'] code = true) :
    ∃ pols diags,
      permission_to_policy_actions_and_conditions permission_code table role =
        Except.ok (pols, diags) ∧
      (∀ p, p ∈ pols → p.action ≠ ['G', a]) ∧
      (⟨code, table, role⟩ : Diag) ∈ diags := by
  refine ⟨(resolveCore code table role attrs).1, (resolveCore code table role attrs).2, ?_, ?_, ?_⟩
  · unfold permission_to_policy_actions_and_conditions
    rw [hp]
  · intro p hpmem hact
    obtain ⟨b, _, hpb⟩ := mem_resolveCore hpmem
    rcases mem_entriesFor hpb with hf | hf | hf
    · rw [hf] at hact
      simp [directPolicy] at hact
    · have hba : b = a := by
        rw [hf] at hact
        simpa [grantPolicy] using hact
      rw [hba] at hpb
      rw [entriesFor_meaningless table role attrs h1 h2] at hpb
      simp at hpb
      rw [hpb] at hf
      simp [directPolicy, grantPolicy] at hf
    · have hba : b = a := by
        rw [hf] at hact
        simpa [grantPolicy] using hact
      rw [hba] at hpb
      rw [entriesFor_meaningless table role attrs h1 h2] at hpb
      simp at hpb
      rw [hpb] at hf
      simp [directPolicy, grantPolicy] at hf
  · rw [resolveCore_snd]
    fin_cases ha <;>
      simp [entriesFor_meaningless table role attrs h1 h2]

/-- C4 witness: for the code `"GCO"` no `GC` grant entry is emitted, and the
diagnostic `("GCO", "tbl", "admin")` is recorded while the run succeeds. -/
theorem c4_witness :
    ∃ pols diags,
      permission_to_policy_actions_and_conditions (("GCO").toList)
        (("tbl").toList) (("admin").toList) = Except.ok (pols, diags) ∧
      (∀ p, p ∈ pols → p.action ≠ ['G', 'C']) ∧
      (⟨("GCO").toList, ("tbl").toList, ("admin").toList⟩ : Diag) ∈ diags :=
  c4_amended_theorem (("GCO").toList) (("tbl").toList) (("admin").toList)
    (("GCO").toList) Attrs.none 'C' (by rfl) (by decide) (by decide) (by decide)

/-- C9: every grant entry (an entry whose action is `G` followed by a base
letter) produced by the resolver carries condition `none` or
`check_relationship`, never `check_ownership`. -/
theorem c9_theorem (permission_code table role : List Char) (pols : List Policy)
    (diags : List Diag)
    (h : permission_to_policy_actions_and_conditions permission_code table role =
      Except.ok (pols, diags))
    (p : Policy) (hp : p ∈ pols) (a : Char) (hact : p.action = ['G', a]) :
    (p.condition = ("none").toList ∨ p.condition = ("check_relationship").toList) ∧
    p.condition ≠ ("check_ownership").toList := by
  obtain ⟨code, attrs, _, hpol, _⟩ := permission_ok_inv h
  rw [hpol] at hp
  obtain ⟨b, _, hpb⟩ := mem_resolveCore hp
  rcases mem_entriesFor hpb with h1 | h1 | h1
  · rw [h1] at hact
    simp [directPolicy] at hact
  · rw [h1]
    refine ⟨Or.inr rfl, ?_⟩
    show ("check_relationship").toList ≠ ("check_ownership").toList
    decide
  · rw [h1]
    refine ⟨Or.inl rfl, ?_⟩
    show ("none").toList ≠ ("check_ownership").toList
    decide

/-- C9 witness: the grant entry of `"GC"` has condition `none`, which is not
`check_ownership`. -/
theorem c9_witness :
    ((grantPolicy (("tbl").toList) (("admin").toList) Attrs.none 'C'
        (("none").toList)).condition = ("none").toList ∨
      (grantPolicy (("tbl").toList) (("admin").toList) Attrs.none 'C'
        (("none").toList)).condition = ("check_relationship").toList) ∧
    (grantPolicy (("tbl").toList) (("admin").toList) Attrs.none 'C'
      (("none").toList)).condition ≠ ("check_ownership").toList :=
  c9_theorem (("GC").toList) (("tbl").toList) (("admin").toList)
    [directPolicy (("GC").toList) (("tbl").toList) (("admin").toList) Attrs.none 'C',
     grantPolicy (("tbl").toList) (("admin").toList) Attrs.none 'C' (("none").toList)]
    [] (by rfl)
    (grantPolicy (("tbl").toList) (("admin").toList) Attrs.none 'C' (("none").toList))
    (by simp) 'C' (by rfl)

/-- Position of a base action letter in the fixed `C, R, U, D` order. -/
def letterRank (c : Char) : Nat :=
  if c == 'C' then 0
  else if c == 'R' then 1
  else if c == 'U' then 2
  else if c == 'D' then 3
  else 4

/-- Sort key of an emitted row: direct entries of action `a` map to
`2 * rank a`, grant entries to `2 * rank a + 1`, so the emission contract
"actions in C,R,U,D order, direct before grant" is exactly strict
monotonicity of the keys. -/
def entryKey (p : Policy) : Nat :=
  match p.action with
  | [a] => 2 * letterRank a
  | [_, a] => 2 * letterRank a + 1
  | _ => 9

/-- Key of a direct row. -/
theorem entryKey_direct (code table role : List Char) (attrs : Attrs) (a : Char) :
    entryKey (directPolicy code table role attrs a) = 2 * letterRank a := rfl

/-- Key of a grant row. -/
theorem entryKey_grant (table role : List Char) (attrs : Attrs) (a : Char) (c : List Char) :
    entryKey (grantPolicy table role attrs a c) = 2 * letterRank a + 1 := rfl

/-- The keys of one iteration's rows: nothing, the direct key alone, or the
direct key followed by the grant key. -/
theorem keys_entriesFor (code table role : List Char) (attrs : Attrs) (a : Char) :
    (entriesFor code table role attrs a).1.map entryKey = [] ∨
    (entriesFor code table role attrs a).1.map entryKey = [2 * letterRank a] ∨
    (entriesFor code table role attrs a).1.map entryKey =
      [2 * letterRank a, 2 * letterRank a + 1] := by
  rcases entriesFor_eq code table role attrs a with h | h | h | h | h <;> rw [h] <;>
    simp [entryKey_direct, entryKey_grant]

/-- Keys of the resolver's rows are strictly increasing. -/
theorem resolveCore_keys_pairwise (code table role : List Char) (attrs : Attrs) :
    ((resolveCore code table role attrs).1.map entryKey).Pairwise (· < ·) := by
  rw [resolveCore_fst]
  rcases keys_entriesFor code table role attrs 'C' with hC | hC | hC <;>
  rcases keys_entriesFor code table role attrs 'R' with hR | hR | hR <;>
  rcases keys_entriesFor code table role attrs 'U' with hU | hU | hU <;>
  rcases keys_entriesFor code table role attrs 'D' with hD | hD | hD <;>
    simp only [List.map_append, hC, hR, hU, hD] <;> decide

/-- C6: in every successfully resolved cell the rows appear action-by-action
in the fixed `C, R, U, D` order, the direct entry before the grant entry of
the same action: the row keys are strictly increasing. -/
theorem c6_theorem (permission_code table role : List Char) (pols : List Policy)
    (diags : List Diag)
    (h : permission_to_policy_actions_and_conditions permission_code table role =
      Except.ok (pols, diags)) :
    (pols.map entryKey).Pairwise (· < ·) := by
  obtain ⟨code, attrs, _, hpol, _⟩ := permission_ok_inv h
  rw [hpol]
  exact resolveCore_keys_pairwise code table role attrs

/-- C6 witness: the two rows of `"GC"` come out direct-then-grant. -/
theorem c6_witness :
    (List.map entryKey
      [directPolicy (("GC").toList) (("tbl").toList) (("admin").toList) Attrs.none 'C',
       grantPolicy (("tbl").toList) (("admin").toList) Attrs.none 'C'
         (("none").toList)]).Pairwise (· < ·) :=
  c6_theorem (("GC").toList) (("tbl").toList) (("admin").toList)
    [directPolicy (("GC").toList) (("tbl").toList) (("admin").toList) Attrs.none 'C',
     grantPolicy (("tbl").toList) (("admin").toList) Attrs.none 'C' (("none").toList)]
    [] (by rfl)

/-- Each iteration emits at most two rows. -/
theorem length_entriesFor_le (code table role : List Char) (attrs : Attrs) (a : Char) :
    (entriesFor code table role attrs a).1.length ≤ 2 := by
  rcases entriesFor_eq code table role attrs a with h | h | h | h | h <;> rw [h] <;> simp

/-- Another letter's iteration emits no row with bare action `[x]`. -/
theorem countP_direct_ne (code table role : List Char) (attrs : Attrs) {b x : Char}
    (hbx : b ≠ x) :
    (entriesFor code table role attrs b).1.countP (fun p => p.action == [x]) = 0 := by
  refine List.countP_eq_zero.mpr ?_
  intro p hp
  rcases mem_entriesFor hp with h | h | h <;> rw [h] <;> simp [directPolicy, grantPolicy, hbx]

/-- A letter's own iteration emits at most one row with its bare action. -/
theorem countP_direct_self (code table role : List Char) (attrs : Attrs) (b : Char) :
    (entriesFor code table role attrs b).1.countP (fun p => p.action == [b]) ≤ 1 := by
  rcases entriesFor_eq code table role attrs b with h | h | h | h | h <;> rw [h] <;>
    simp [List.countP_cons, directPolicy, grantPolicy]

/-- Another letter's iteration emits no row with grant action `['G', x]`. -/
theorem countP_grant_ne (code table role : List Char) (attrs : Attrs) {b x : Char}
    (hbx : b ≠ x) :
    (entriesFor code table role attrs b).1.countP (fun p => p.action == ['G', x]) = 0 := by
  refine List.countP_eq_zero.mpr ?_
  intro p hp
  rcases mem_entriesFor hp with h | h | h <;> rw [h] <;> simp [directPolicy, grantPolicy, hbx]

/-- A letter's own iteration emits at most one row with its grant action. -/
theorem countP_grant_self (code table role : List Char) (attrs : Attrs) (b : Char) :
    (entriesFor code table role attrs b).1.countP (fun p => p.action == ['G', b]) ≤ 1 := by
  rcases entriesFor_eq code table role attrs b with h | h | h | h | h <;> rw [h] <;>
    simp [List.countP_cons, directPolicy, grantPolicy]

/-- C10: every successfully resolved cell has at most one direct and at most
one grant row per base action, at most eight rows overall, and a grant row
for an action exists only when the direct row for the same action does. -/
theorem c10_theorem (permission_code table role : List Char) (pols : List Policy)
    (diags : List Diag)
    (h : permission_to_policy_actions_and_conditions permission_code table role =
      Except.ok (pols, diags)) :
    (∀ a, a ∈ actions →
      pols.countP (fun p => p.action == [a]) ≤ 1 ∧
      pols.countP (fun p => p.action == ['G', a]) ≤ 1) ∧
    pols.length ≤ 8 ∧
    (∀ a p, p ∈ pols → p.action = ['G', a] → ∃ q, q ∈ pols ∧ q.action = [a]) := by
  obtain ⟨code, attrs, _, hpol, _⟩ := permission_ok_inv h
  subst hpol
  refine ⟨?_, ?_, ?_⟩
  · intro a ha
    rw [resolveCore_fst]
    simp only [List.countP_append]
    fin_cases ha
    · constructor
      · have e1 := countP_direct_self code table role attrs 'C'
        have e2 := countP_direct_ne code table role attrs (show 'R' ≠ 'C' by decide)
        have e3 := countP_direct_ne code table role attrs (show 'U' ≠ 'C' by decide)
        have e4 := countP_direct_ne code table role attrs (show 'D' ≠ 'C' by decide)
        omega
      · have e1 := countP_grant_self code table role attrs 'C'
        have e2 := countP_grant_ne code table role attrs (show 'R' ≠ 'C' by decide)
        have e3 := countP_grant_ne code table role attrs (show 'U' ≠ 'C' by decide)
        have e4 := countP_grant_ne code table role attrs (show 'D' ≠ 'C' by decide)
        omega
    · constructor
      · have e1 := countP_direct_self code table role attrs 'R'
        have e2 := countP_direct_ne code table role attrs (show 'C' ≠ 'R' by decide)
        have e3 := countP_direct_ne code table role attrs (show 'U' ≠ 'R' by decide)
        have e4 := countP_direct_ne code table role attrs (show 'D' ≠ 'R' by decide)
        omega
      · have e1 := countP_grant_self code table role attrs 'R'
        have e2 := countP_grant_ne code table role attrs (show 'C' ≠ 'R' by decide)
        have e3 := countP_grant_ne code table role attrs (show 'U' ≠ 'R' by decide)
        have e4 := countP_grant_ne code table role attrs (show 'D' ≠ 'R' by decide)
        omega
    · constructor
      · have e1 := countP_direct_self code table role attrs 'U'
        have e2 := countP_direct_ne code table role attrs (show 'C' ≠ 'U' by decide)
        have e3 := countP_direct_ne code table role attrs (show 'R' ≠ 'U' by decide)
        have e4 := countP_direct_ne code table role attrs (show 'D' ≠ 'U' by decide)
        omega
      · have e1 := countP_grant_self code table role attrs 'U'
        have e2 := countP_grant_ne code table role attrs (show 'C' ≠ 'U' by decide)
        have e3 := countP_grant_ne code table role attrs (show 'R' ≠ 'U' by decide)
        have e4 := countP_grant_ne code table role attrs (show 'D' ≠ 'U' by decide)
        omega
    · constructor
      · have e1 := countP_direct_self code table role attrs 'D'
        have e2 := countP_direct_ne code table role attrs (show 'C' ≠ 'D' by decide)
        have e3 := countP_direct_ne code table role attrs (show 'R' ≠ 'D' by decide)
        have e4 := countP_direct_ne code table role attrs (show 'U' ≠ 'D' by decide)
        omega
      · have e1 := countP_grant_self code table role attrs 'D'
        have e2 := countP_grant_ne code table role attrs (show 'C' ≠ 'D' by decide)
        have e3 := countP_grant_ne code table role attrs (show 'R' ≠ 'D' by decide)
        have e4 := countP_grant_ne code table role attrs (show 'U' ≠ 'D' by decide)
        omega
  · rw [resolveCore_fst]
    simp only [List.length_append]
    have h1 := length_entriesFor_le code table role attrs 'C'
    have h2 := length_entriesFor_le code table role attrs 'R'
    have h3 := length_entriesFor_le code table role attrs 'U'
    have h4 := length_entriesFor_le code table role attrs 'D'
    omega
  · intro a p hp hact
    obtain ⟨b, hb, hpb⟩ := mem_resolveCore hp
    rcases mem_entriesFor hpb with h1 | h1 | h1
    · rw [h1] at hact
      simp [directPolicy] at hact
    · have hba : b = a := by
        rw [h1] at hact
        simpa [grantPolicy] using hact
      subst hba
      refine ⟨directPolicy code table role attrs b,
        block_subset hb (directPolicy_mem_entriesFor table role attrs ?_), rfl⟩
      by_contra hno
      have hno' : containsSub [b] code = false := by
        cases hcs : containsSub [b] code
        · rfl
        · exact absurd hcs hno
      have : (entriesFor code table role attrs b).1 = [] := by
        unfold entriesFor
        rw [hno']
        rfl
      rw [this] at hpb
      exact absurd hpb (List.not_mem_nil p)
    · have hba : b = a := by
        rw [h1] at hact
        simpa [grantPolicy] using hact
      subst hba
      refine ⟨directPolicy code table role attrs b,
        block_subset hb (directPolicy_mem_entriesFor table role attrs ?_), rfl⟩
      by_contra hno
      have hno' : containsSub [b] code = false := by
        cases hcs : containsSub [b] code
        · rfl
        · exact absurd hcs hno
      have : (entriesFor code table role attrs b).1 = [] := by
        unfold entriesFor
        rw [hno']
        rfl
      rw [this] at hpb
      exact absurd hpb (List.not_mem_nil p)

/-- C10 witness: the two rows of `"GC"` satisfy the per-action multiplicity
bounds, the overall bound of eight, and the grant-implies-direct property. -/
theorem c10_witness :
    (∀ a, a ∈ actions →
      (List.countP (fun p => p.action == [a])
        [directPolicy (("GC").toList) (("tbl").toList) (("admin").toList) Attrs.none 'C',
         grantPolicy (("tbl").toList) (("admin").toList) Attrs.none 'C'
           (("none").toList)]) ≤ 1 ∧
      (List.countP (fun p => p.action == ['G', a])
        [directPolicy (("GC").toList) (("tbl").toList) (("admin").toList) Attrs.none 'C',
         grantPolicy (("tbl").toList) (("admin").toList) Attrs.none 'C'
           (("none").toList)]) ≤ 1) ∧
    (List.length
      [directPolicy (("GC").toList) (("tbl").toList) (("admin").toList) Attrs.none 'C',
       grantPolicy (("tbl").toList) (("admin").toList) Attrs.none 'C'
         (("none").toList)]) ≤ 8 ∧
    (∀ a p,
      p ∈ [directPolicy (("GC").toList) (("tbl").toList) (("admin").toList) Attrs.none 'C',
           grantPolicy (("tbl").toList) (("admin").toList) Attrs.none 'C'
             (("none").toList)] →
      p.action = ['G', a] →
      ∃ q, q ∈ [directPolicy (("GC").toList) (("tbl").toList) (("admin").toList) Attrs.none 'C',
                grantPolicy (("tbl").toList) (("admin").toList) Attrs.none 'C'
                  (("none").toList)] ∧ q.action = [a]) :=
  c10_theorem (("GC").toList) (("tbl").toList) (("admin").toList)
    [directPolicy (("GC").toList) (("tbl").toList) (("admin").toList) Attrs.none 'C',
     grantPolicy (("tbl").toList) (("admin").toList) Attrs.none 'C' (("none").toList)]
    [] (by rfl)

end Convertor
